import Mathlib

/-!
# Verification of the Tic-Tac-Toe Socket.IO server (`src/server.js`)

Shallow embedding of the server's room registry and event handlers.

* A JS `null` board cell is `Option.none`; a mark is `some Symbol`.
* The JS `Map` of rooms (insertion-ordered, unique keys) is an association
  list `List (String × Room)`; `Map.set` on a fresh key appends at the end.
* Each socket event handler (`game:create-room`, `game:join-room`,
  `game:move`, `game:reset`, `game:leave`, `disconnect`) becomes a pure
  function from the rooms map to the new rooms map plus the list of
  emitted messages, tagged with their destination (`socket.emit` goes to
  the sender, `io.to(rid).emit` to the whole room group,
  `socket.to(rid).emit` to the group minus the sender).
* `Math.random`-based id generation is external input: the fresh
  `shortRoomId` and the `fullRoomId` are parameters of the create
  handler; the `while (rooms.has(...))` retry loop is reflected by the
  freshness hypothesis in the `Reachable` relation.
-/

namespace TicTacToe

/-- A player mark, JS string `'X'` or `'O'`. -/
inductive Symbol
  | X
  | O
deriving DecidableEq, Repr

/-- The ternary expression `symbol === 'X' ? 'O' : 'X'` used by the move
and reset handlers. -/
def Symbol.flip : Symbol → Symbol
  | .X => .O
  | .O => .X

/-- A board cell: JS `null` or a mark. -/
abbrev Cell := Option Symbol

/-- Result classes of `checkWinner` other than JS `null`:
a winning mark or the string `'draw'`. -/
inductive Outcome
  | win (s : Symbol)
  | draw
deriving DecidableEq, Repr

/-- The `gameStatus` field: `'waiting' | 'playing' | 'finished'`. -/
inductive GameStatus
  | waiting
  | playing
  | finished
deriving DecidableEq, Repr

/-- Read `board[i]` for an index taken from the fixed line table.  JS yields
`undefined` for an out-of-range read; `undefined` and `null` are both
falsy and both fail `=== someMark`, so a single `none` models both. -/
def cellD (b : List Cell) (i : Nat) : Cell :=
  b.getD i none

/-- The 8 win lines of `checkWinner`: 3 rows, 3 columns, 2 diagonals,
in source order. -/
def winLines : List (Nat × Nat × Nat) :=
  [(0, 1, 2), (3, 4, 5), (6, 7, 8),
   (0, 3, 6), (1, 4, 7), (2, 5, 8),
   (0, 4, 8), (2, 4, 6)]

/-- One iteration of the `for (const [a, b, c] of lines)` loop body:
`board[a] && board[a] === board[b] && board[a] === board[c]` yields
`board[a]`. -/
def checkLine (b : List Cell) : Nat × Nat × Nat → Option Symbol
  | (i, j, k) =>
    match cellD b i with
    | none => none
    | some s => if cellD b j = some s ∧ cellD b k = some s then some s else none

/-- The `for ... of lines` loop of `checkWinner`: return the first line
hit, else fall through. -/
def findLineWinner (b : List Cell) : List (Nat × Nat × Nat) → Option Symbol
  | [] => none
  | l :: ls =>
    match checkLine b l with
    | some s => some s
    | none => findLineWinner b ls

/-- Computes `board.every((cell) => cell !== null)`. -/
def boardFull (b : List Cell) : Bool :=
  b.all (fun c => c.isSome)

/-- Function `checkWinner` from `src/server.js`: first matching line wins, else
`'draw'` if every cell is filled, else `null`. -/
def checkWinner (b : List Cell) : Option Outcome :=
  match findLineWinner b winLines with
  | some s => some (Outcome.win s)
  | none => if boardFull b then some Outcome.draw else none

/-- One room, the value stored in the `rooms` map. -/
structure Room where
  players : List String
  board : List Cell
  currentPlayer : Symbol
  gameStatus : GameStatus
  fullRoomId : String
  lastStartingPlayer : Symbol
deriving DecidableEq, Repr

/-- The `rooms` map: key is the 6-character short id.  JS `Map` keeps
insertion order and unique keys. -/
abbrev RoomsMap := List (String × Room)

/-- Lookup `rooms.get(k)` / `rooms.has(k)`. -/
def mapGet : RoomsMap → String → Option Room
  | [], _ => none
  | (k0, r) :: rest, k => if k0 = k then some r else mapGet rest k

/-- The `for (const [key, value] of rooms.entries())` reverse-lookup loop
used by the move/reset/leave handlers: first entry whose `fullRoomId`
matches. -/
def findByFull (rid : String) : RoomsMap → Option (String × Room)
  | [] => none
  | (k, r) :: rest => if r.fullRoomId = rid then some (k, r) else findByFull rid rest

/-- In-place mutation of the room object found by `findByFull`: replace
the first entry whose `fullRoomId` matches. -/
def updateByFull (rid : String) (r1 : Room) : RoomsMap → RoomsMap
  | [] => []
  | (k, r) :: rest =>
    if r.fullRoomId = rid then (k, r1) :: rest else (k, r) :: updateByFull rid r1 rest

/-- In-place mutation of the room object found by `rooms.get`: replace
the entry stored under key `k`. -/
def mapSet (m : RoomsMap) (k : String) (r1 : Room) : RoomsMap :=
  m.map (fun p => if p.1 = k then (k, r1) else p)

/-- Deletion `rooms.delete(k)`. -/
def mapDelete : RoomsMap → String → RoomsMap
  | [], _ => []
  | (k0, r) :: rest, k =>
    if k0 = k then mapDelete rest k else (k0, r) :: mapDelete rest k

/-- Destination of an outbound emit. -/
inductive Dest
  | toSender (sid : String)
  | toGroup (rid : String)
  | toGroupExceptSender (rid : String) (sid : String)
deriving DecidableEq, Repr

/-- Outbound message payloads of the server. -/
inductive Msg
  | joined (roomId : String) (shortRoomId : String) (symbol : Symbol) (isFirstPlayer : Bool)
  | playerJoined (symbol : Symbol)
  | moveBroadcast (board : List Cell) (currentPlayer : Symbol) (winner : Option Outcome)
  | error (text : String)
  | leftRoom
  | opponentLeft
deriving DecidableEq, Repr

/-- JS `String.prototype.trim` over the character-list model (the exact
whitespace set does not matter for any claim; only `trim` of an
all-non-space string and of an all-space string are ever relied on). -/
def jsTrim (s : String) : String :=
  ⟨((s.data.dropWhile Char.isWhitespace).reverse.dropWhile Char.isWhitespace).reverse⟩

/-- JS `String.prototype.toUpperCase` over the character-list model. -/
def jsToUpper (s : String) : String :=
  ⟨s.data.map Char.toUpper⟩

/-- A fresh room as built by the `game:create-room` handler. -/
def newRoom (sender fullRoomId : String) : Room :=
  { players := [sender]
    board := List.replicate 9 none
    currentPlayer := .X
    gameStatus := .waiting
    fullRoomId := fullRoomId
    lastStartingPlayer := .X }

/-- The `game:create-room` handler.  The generated `shortRoomId` and the
`Date.now()`-based `fullRoomId` are inputs; the uniqueness retry loop is
a freshness side condition (see `Reachable.create`). -/
def gameCreateRoom (sender shortRoomId fullRoomId : String) (m : RoomsMap) :
    RoomsMap × List (Dest × Msg) :=
  (m ++ [(shortRoomId, newRoom sender fullRoomId)],
   [(.toSender sender, .joined fullRoomId shortRoomId .X true)])

/-- The `game:join-room` handler. -/
def gameJoinRoom (sender roomId : String) (m : RoomsMap) :
    RoomsMap × List (Dest × Msg) :=
  if jsTrim roomId = "" then
    (m, [(.toSender sender, .error "Invalid room ID. Please enter a room ID.")])
  else
    let shortRoomId := jsToUpper (jsTrim roomId)
    match mapGet m shortRoomId with
    | none => (m, [(.toSender sender, .error "Room not found. Please check the room ID.")])
    | some room =>
      if room.players.length ≥ 2 then
        (m, [(.toSender sender, .error "Room is full. Maximum 2 players allowed.")])
      else if sender ∈ room.players then
        (m, [(.toSender sender, .error "You are already in this room.")])
      else
        let room1 := { room with
          players := room.players ++ [sender]
          gameStatus := .playing
          currentPlayer := room.lastStartingPlayer }
        (mapSet m shortRoomId room1,
         [(.toSender sender, .joined room.fullRoomId shortRoomId .O false),
          (.toGroup room.fullRoomId, .playerJoined .X)])

/-- Read `room.board[index]` for a client-supplied integer index: JS yields
`undefined` (modelled by the outer `none`) when the index is negative or
past the end, the cell otherwise. -/
def cellAt (b : List Cell) (i : Int) : Option Cell :=
  if i < 0 then none else b[i.toNat]?

/-- Write `room.board[index] = symbol` (only reached for an in-range index). -/
def setCell (b : List Cell) (i : Int) (s : Symbol) : List Cell :=
  if i < 0 then b else b.set i.toNat (some s)

/-- The acceptance condition of the `game:move` handler on a found room:
game in progress, it is `symbol`'s turn, and the addressed cell exists
and is empty (the `board[index] !== null` guard fails otherwise). -/
def moveAccepted (room : Room) (i : Int) (sym : Symbol) : Prop :=
  room.gameStatus = .playing ∧ room.currentPlayer = sym ∧ cellAt room.board i = some none

instance (room : Room) (i : Int) (sym : Symbol) : Decidable (moveAccepted room i sym) := by
  unfold moveAccepted; infer_instance

/-- The mutation performed by an accepted move: place the mark, flip the
turn, and finish the game when `checkWinner` reports an outcome. -/
def movedRoom (room : Room) (i : Int) (sym : Symbol) : Room :=
  let board1 := setCell room.board i sym
  { room with
    board := board1
    currentPlayer := sym.flip
    gameStatus := if (checkWinner board1).isSome then .finished else room.gameStatus }

/-- The `game:move` handler. -/
def gameMove (sender rid : String) (i : Int) (sym : Symbol) (m : RoomsMap) :
    RoomsMap × List (Dest × Msg) :=
  match findByFull rid m with
  | none => (m, [(.toSender sender, .error "Room not found")])
  | some (_, room) =>
    if room.gameStatus ≠ .playing then
      (m, [(.toSender sender, .error "Game is not in progress")])
    else if room.currentPlayer ≠ sym then
      (m, [(.toSender sender, .error "Not your turn")])
    else if cellAt room.board i ≠ some none then
      (m, [(.toSender sender, .error "Cell already occupied")])
    else
      let room1 := movedRoom room i sym
      (updateByFull rid room1 m,
       [(.toGroup rid, .moveBroadcast room1.board room1.currentPlayer (checkWinner room1.board))])

/-- The mutation performed by the `game:reset` handler on the found room:
alternate the starting player, clear the board, hand the turn to the new
starting player, set the game playing. -/
def resetRoom (room : Room) : Room :=
  let newStart := room.lastStartingPlayer.flip
  { room with
    lastStartingPlayer := newStart
    board := List.replicate 9 none
    currentPlayer := newStart
    gameStatus := .playing }

/-- The `game:reset` handler. -/
def gameReset (sender rid : String) (m : RoomsMap) : RoomsMap × List (Dest × Msg) :=
  match findByFull rid m with
  | none => (m, [(.toSender sender, .error "Room not found")])
  | some (_, room) =>
    let room1 := resetRoom room
    (updateByFull rid room1 m,
     [(.toGroup rid, .moveBroadcast room1.board room1.currentPlayer none)])

/-- Computes `room.players.filter((id) => id !== socket.id)`. -/
def removePlayer (players : List String) (sender : String) : List String :=
  players.filter (fun pid => pid ≠ sender)

/-- The `game:leave` handler.  When no room matches, the handler only
calls `socket.leave(roomId)` — it emits nothing and mutates nothing. -/
def gameLeave (sender rid : String) (m : RoomsMap) : RoomsMap × List (Dest × Msg) :=
  match findByFull rid m with
  | none => (m, [])
  | some (k, room) =>
    let ps := removePlayer room.players sender
    if ps.isEmpty then
      (mapDelete m k, [(.toSender sender, .leftRoom)])
    else
      (updateByFull rid { room with players := ps } m,
       [(.toSender sender, .leftRoom), (.toGroupExceptSender rid sender, .opponentLeft)])

/-- One iteration of the disconnect cleanup loop on one map entry:
`none` means the entry is deleted. -/
def leaveOnDisconnect (sender : String) (kr : String × Room) :
    Option (String × Room) × List (Dest × Msg) :=
  if sender ∈ kr.2.players then
    let ps := removePlayer kr.2.players sender
    if ps.isEmpty then (none, [])
    else (some (kr.1, { kr.2 with players := ps }),
          [(.toGroupExceptSender kr.2.fullRoomId sender, .opponentLeft)])
  else (some kr, [])

/-- The `disconnect` handler: scan every room for the disconnecting
socket, remove it, delete rooms that become empty, notify the rest. -/
def disconnectCleanup (sender : String) : RoomsMap → RoomsMap × List (Dest × Msg)
  | [] => ([], [])
  | kr :: rest =>
    let step := leaveOnDisconnect sender kr
    let tail := disconnectCleanup sender rest
    (step.1.toList ++ tail.1, step.2 ++ tail.2)

/-- The rooms maps reachable from the empty registry by handler calls.
`create` carries the guarantee established by the
`while (rooms.has(shortRoomId))` retry loop: the generated short id is
fresh. -/
inductive Reachable : RoomsMap → Prop
  | init : Reachable []
  | create {m : RoomsMap} (s sid fid : String) (h : Reachable m)
      (hfresh : mapGet m sid = none) :
      Reachable (gameCreateRoom s sid fid m).1
  | join {m : RoomsMap} (s roomId : String) (h : Reachable m) :
      Reachable (gameJoinRoom s roomId m).1
  | move {m : RoomsMap} (s rid : String) (i : Int) (sym : Symbol) (h : Reachable m) :
      Reachable (gameMove s rid i sym m).1
  | reset {m : RoomsMap} (s rid : String) (h : Reachable m) :
      Reachable (gameReset s rid m).1
  | leave {m : RoomsMap} (s rid : String) (h : Reachable m) :
      Reachable (gameLeave s rid m).1
  | disconnect {m : RoomsMap} (s : String) (h : Reachable m) :
      Reachable (disconnectCleanup s m).1

/-- Spec-side predicate, following the claim's words: the mark `s`
"fills one of the 8 fixed triples (3 rows, 3 columns, 2 diagonals) with
three equal non-empty cells". -/
def markFillsTriple (b : List Cell) (s : Symbol) : Bool :=
  winLines.any (fun l =>
    decide (cellD b l.1 = some s ∧ cellD b l.2.1 = some s ∧ cellD b l.2.2 = some s))

/-- Whether a destination addresses the room group rather than the
requesting socket alone. -/
def isGroupDest : Dest → Bool
  | .toSender _ => false
  | .toGroup _ => true
  | .toGroupExceptSender _ _ => true

/-- The messages of a reply list that are addressed to the room group
(either everyone or everyone but the sender), i.e. everything that is
not a direct reply. -/
def groupMsgs (msgs : List (Dest × Msg)) : List (Dest × Msg) :=
  msgs.filter (fun dm => isGroupDest dm.1)

/-- The success precondition of the join handler: non-blank id, room
found under the normalized short id, not full, sender not already in. -/
def joinPre (s roomId : String) (m : RoomsMap) : Prop :=
  jsTrim roomId ≠ "" ∧ ∃ room, mapGet m (jsToUpper (jsTrim roomId)) = some room ∧
    room.players.length < 2 ∧ s ∉ room.players

/-- The success precondition of the move handler: room found by
`fullRoomId` and the move accepted on it. -/
def movePre (rid : String) (i : Int) (sym : Symbol) (m : RoomsMap) : Prop :=
  ∃ k room, findByFull rid m = some (k, room) ∧ moveAccepted room i sym

/-- Demo registry for concrete witnesses: "alice" created room `ABCDEF`
(transport id `room-1-abcdef`), then "bob" joined. -/
def demoMap : RoomsMap :=
  (gameJoinRoom "bob" "ABCDEF" (gameCreateRoom "alice" "ABCDEF" "room-1-abcdef" []).1).1

/-- The single room of `demoMap`. -/
def demoRoom : Room :=
  { players := ["alice", "bob"]
    board := List.replicate 9 none
    currentPlayer := .X
    gameStatus := .playing
    fullRoomId := "room-1-abcdef"
    lastStartingPlayer := .X }

/-- A board on which both marks have completed a line (X on the top row,
O on the middle row). -/
def doubleWinBoard : List Cell :=
  [some .X, some .X, some .X, some .O, some .O, some .O, none, none, none]

/-- A board on which only X has completed a line. -/
def topRowXBoard : List Cell :=
  [some .X, some .X, some .X, some .O, some .O, none, none, none, none]

/-- The demo room after X has taken cell 0. -/
def demoRoomMoved : Room :=
  { players := ["alice", "bob"]
    board := [some .X, none, none, none, none, none, none, none, none]
    currentPlayer := .O
    gameStatus := .playing
    fullRoomId := "room-1-abcdef"
    lastStartingPlayer := .X }

/-- The registry after X has taken cell 0 of the demo room. -/
def demoMapMoved : RoomsMap :=
  (gameMove "alice" "room-1-abcdef" 0 .X demoMap).1

/-- The registry after a subsequent reset of the demo room. -/
def demoMapMovedReset : RoomsMap :=
  (gameReset "bob" "room-1-abcdef" demoMapMoved).1

/-- The registry `["alice" alone in room ABCDEF]` after a reset: the
reset succeeds on a `waiting` room and marks it `playing`. -/
def waitingResetMap : RoomsMap :=
  (gameReset "alice" "room-1-abcdef" (gameCreateRoom "alice" "ABCDEF" "room-1-abcdef" []).1).1

/-! ## Basic lemmas -/

theorem Symbol.flip_flip (s : Symbol) : s.flip.flip = s := by
  cases s <;> rfl

theorem Symbol.flip_ne (s : Symbol) : s.flip ≠ s := by
  cases s <;> simp [Symbol.flip]

theorem Symbol.eq_or_eq_flip (t s : Symbol) : t = s ∨ t = s.flip := by
  cases t <;> cases s <;> simp [Symbol.flip]

theorem checkLine_eq_some_iff {b : List Cell} {i j k : Nat} {s : Symbol} :
    checkLine b (i, j, k) = some s ↔
      cellD b i = some s ∧ cellD b j = some s ∧ cellD b k = some s := by
  rcases h : cellD b i with _ | t
  · simp only [checkLine, h]
    simp [h]
  · by_cases hc : cellD b j = some t ∧ cellD b k = some t
    · simp only [checkLine, h, if_pos hc]
      constructor
      · rintro h2
        cases h2
        exact ⟨rfl, hc.1, hc.2⟩
      · rintro ⟨h1, _, _⟩
        exact h1
    · simp only [checkLine, h, if_neg hc]
      constructor
      · rintro h2
        cases h2
      · rintro ⟨h1, h2, h3⟩
        cases h1
        exact absurd ⟨h2, h3⟩ hc

theorem findLineWinner_eq_none_iff {b : List Cell} {ls : List (Nat × Nat × Nat)} :
    findLineWinner b ls = none ↔ ∀ l ∈ ls, checkLine b l = none := by
  induction ls with
  | nil => simp [findLineWinner]
  | cons l ls ih =>
    rcases h : checkLine b l with _ | t
    · simp [findLineWinner, h, ih]
    · simp only [findLineWinner, h]
      constructor
      · rintro h2
        cases h2
      · intro h2
        have h3 := h2 l (List.mem_cons_self l ls)
        rw [h3] at h
        cases h

theorem findLineWinner_mem {b : List Cell} {ls : List (Nat × Nat × Nat)} {s : Symbol}
    (h : findLineWinner b ls = some s) : ∃ l ∈ ls, checkLine b l = some s := by
  induction ls with
  | nil => cases h
  | cons l ls ih =>
    rcases hc : checkLine b l with _ | t
    · simp only [findLineWinner, hc] at h
      obtain ⟨l1, hl1, hcl1⟩ := ih h
      exact ⟨l1, List.mem_cons_of_mem _ hl1, hcl1⟩
    · simp only [findLineWinner, hc] at h
      cases h
      exact ⟨l, List.mem_cons_self l ls, hc⟩

theorem findLineWinner_eq_some {b : List Cell} {ls : List (Nat × Nat × Nat)} {s : Symbol}
    (hall : ∀ l ∈ ls, checkLine b l = none ∨ checkLine b l = some s)
    (hex : ∃ l ∈ ls, checkLine b l = some s) :
    findLineWinner b ls = some s := by
  induction ls with
  | nil => simp at hex
  | cons l ls ih =>
    rcases hc : checkLine b l with _ | t
    · simp only [findLineWinner, hc]
      apply ih
      · exact fun l1 hl1 => hall l1 (List.mem_cons_of_mem _ hl1)
      · rcases hex with ⟨l1, hl1, hcl1⟩
        rcases List.mem_cons.mp hl1 with rfl | hl1
        · rw [hc] at hcl1
          cases hcl1
        · exact ⟨l1, hl1, hcl1⟩
    · have h1 := hall l (List.mem_cons_self l ls)
      rw [hc] at h1
      rcases h1 with h1 | h1
      · cases h1
      · simp only [findLineWinner, hc, h1]

theorem markFillsTriple_iff {b : List Cell} {s : Symbol} :
    markFillsTriple b s = true ↔ ∃ l ∈ winLines, checkLine b l = some s := by
  unfold markFillsTriple
  rw [List.any_eq_true]
  constructor
  · rintro ⟨l, hl, hp⟩
    rw [decide_eq_true_eq] at hp
    rcases l with ⟨i, j, k⟩
    exact ⟨(i, j, k), hl, checkLine_eq_some_iff.mpr hp⟩
  · rintro ⟨l, hl, hp⟩
    rcases l with ⟨i, j, k⟩
    refine ⟨(i, j, k), hl, ?_⟩
    rw [decide_eq_true_eq]
    exact checkLine_eq_some_iff.mp hp

/-! ## Association-list lemmas for the rooms map -/

theorem mapGet_eq_none_iff {m : RoomsMap} {k : String} :
    mapGet m k = none ↔ ∀ kr ∈ m, kr.1 ≠ k := by
  induction m with
  | nil => simp [mapGet]
  | cons kr rest ih =>
    rcases kr with ⟨k0, r0⟩
    by_cases h : k0 = k
    · subst h
      simp [mapGet]
    · simp [mapGet, h, ih]

theorem mapGet_mem {m : RoomsMap} {k : String} {r : Room} (h : mapGet m k = some r) :
    (k, r) ∈ m := by
  induction m with
  | nil => cases h
  | cons kr rest ih =>
    rcases kr with ⟨k0, r0⟩
    by_cases h0 : k0 = k
    · subst h0
      simp only [mapGet, if_pos rfl] at h
      cases h
      exact List.mem_cons_self _ _
    · simp only [mapGet, if_neg h0] at h
      exact List.mem_cons_of_mem _ (ih h)

theorem mapGet_cons {k0 k : String} {r0 : Room} {rest : RoomsMap} :
    mapGet ((k0, r0) :: rest) k = if k0 = k then some r0 else mapGet rest k := rfl

theorem findByFull_mem {rid : String} {m : RoomsMap} {k : String} {r : Room}
    (h : findByFull rid m = some (k, r)) : (k, r) ∈ m ∧ r.fullRoomId = rid := by
  induction m with
  | nil => cases h
  | cons kr rest ih =>
    rcases kr with ⟨k0, r0⟩
    by_cases h0 : r0.fullRoomId = rid
    · simp only [findByFull, if_pos h0] at h
      cases h
      exact ⟨List.mem_cons_self _ _, h0⟩
    · simp only [findByFull, if_neg h0] at h
      obtain ⟨hm, hr⟩ := ih h
      exact ⟨List.mem_cons_of_mem _ hm, hr⟩

theorem findByFull_updateByFull {rid : String} {m : RoomsMap} {k : String} {r r1 : Room}
    (hfind : findByFull rid m = some (k, r)) (h1 : r1.fullRoomId = rid) :
    findByFull rid (updateByFull rid r1 m) = some (k, r1) := by
  induction m with
  | nil => cases hfind
  | cons kr rest ih =>
    rcases kr with ⟨k0, r0⟩
    by_cases h0 : r0.fullRoomId = rid
    · simp only [findByFull, if_pos h0] at hfind
      cases hfind
      simp [updateByFull, findByFull, h0, h1]
    · simp only [findByFull, if_neg h0] at hfind
      simp only [updateByFull, if_neg h0, findByFull]
      exact ih hfind

theorem mem_updateByFull {rid : String} {r1 : Room} {m : RoomsMap} {kr1 : String × Room}
    (h : kr1 ∈ updateByFull rid r1 m) : kr1 ∈ m ∨ kr1.2 = r1 := by
  induction m with
  | nil => cases h
  | cons kr rest ih =>
    rcases kr with ⟨k0, r0⟩
    by_cases h0 : r0.fullRoomId = rid
    · simp only [updateByFull, if_pos h0] at h
      rcases List.mem_cons.mp h with rfl | h
      · right; rfl
      · exact Or.inl (List.mem_cons_of_mem _ h)
    · simp only [updateByFull, if_neg h0] at h
      rcases List.mem_cons.mp h with rfl | h
      · exact Or.inl (List.mem_cons_self _ _)
      · rcases ih h with h | h
        · exact Or.inl (List.mem_cons_of_mem _ h)
        · exact Or.inr h

theorem updateByFull_keys {rid : String} {r1 : Room} {m : RoomsMap} :
    (updateByFull rid r1 m).map Prod.fst = m.map Prod.fst := by
  induction m with
  | nil => rfl
  | cons kr rest ih =>
    rcases kr with ⟨k0, r0⟩
    by_cases h0 : r0.fullRoomId = rid
    · simp [updateByFull, if_pos h0]
    · simp only [updateByFull, if_neg h0, List.map_cons, ih]

theorem mapGet_updateByFull {rid : String} {m : RoomsMap} {k : String} {r r1 : Room}
    (hnd : (m.map Prod.fst).Nodup)
    (hfind : findByFull rid m = some (k, r)) :
    mapGet (updateByFull rid r1 m) k = some r1 := by
  induction m with
  | nil => cases hfind
  | cons kr rest ih =>
    rcases kr with ⟨k0, r0⟩
    simp only [List.map_cons, List.nodup_cons] at hnd
    by_cases h0 : r0.fullRoomId = rid
    · simp only [findByFull, if_pos h0] at hfind
      cases hfind
      simp [updateByFull, if_pos h0, mapGet_cons]
    · simp only [findByFull, if_neg h0] at hfind
      have hmem := (findByFull_mem hfind).1
      have hk : k0 ≠ k := by
        intro hk
        subst hk
        exact hnd.1 (List.mem_map_of_mem Prod.fst hmem)
      simp only [updateByFull, if_neg h0, mapGet_cons, if_neg hk]
      exact ih hnd.2 hfind

theorem mapGet_mapDelete {m : RoomsMap} {k : String} :
    mapGet (mapDelete m k) k = none := by
  induction m with
  | nil => rfl
  | cons kr rest ih =>
    rcases kr with ⟨k0, r0⟩
    by_cases h0 : k0 = k
    · simpa [mapDelete, if_pos h0] using ih
    · simpa [mapDelete, if_neg h0, mapGet_cons, h0] using ih

theorem mem_mapDelete {m : RoomsMap} {k : String} {kr1 : String × Room}
    (h : kr1 ∈ mapDelete m k) : kr1 ∈ m := by
  induction m with
  | nil => cases h
  | cons kr rest ih =>
    rcases kr with ⟨k0, r0⟩
    by_cases h0 : k0 = k
    · simp only [mapDelete, if_pos h0] at h
      exact List.mem_cons_of_mem _ (ih h)
    · simp only [mapDelete, if_neg h0] at h
      rcases List.mem_cons.mp h with rfl | h
      · exact List.mem_cons_self _ _
      · exact List.mem_cons_of_mem _ (ih h)

theorem mapDelete_keys_sublist {m : RoomsMap} {k : String} :
    ((mapDelete m k).map Prod.fst).Sublist (m.map Prod.fst) := by
  induction m with
  | nil => simp [mapDelete]
  | cons kr rest ih =>
    rcases kr with ⟨k0, r0⟩
    by_cases h0 : k0 = k
    · simp only [mapDelete, if_pos h0, List.map_cons]
      exact ih.cons k0
    · simp only [mapDelete, if_neg h0, List.map_cons]
      exact ih.cons₂ k0

theorem mem_mapSet {m : RoomsMap} {k : String} {r1 : Room} {kr1 : String × Room}
    (h : kr1 ∈ mapSet m k r1) : kr1 ∈ m ∨ kr1 = (k, r1) := by
  unfold mapSet at h
  obtain ⟨p, hp, hpe⟩ := List.mem_map.mp h
  by_cases h0 : p.1 = k
  · rw [if_pos h0] at hpe
    exact Or.inr hpe.symm
  · rw [if_neg h0] at hpe
    exact Or.inl (hpe ▸ hp)

theorem mapSet_keys {m : RoomsMap} {k : String} {r1 : Room} :
    (mapSet m k r1).map Prod.fst = m.map Prod.fst := by
  unfold mapSet
  rw [List.map_map]
  apply List.map_congr_left
  intro p _
  by_cases h0 : p.1 = k
  · simp [h0]
  · simp [h0]

/-! ## Player-list lemmas -/

theorem removePlayer_length_le (ps : List String) (s : String) :
    (removePlayer ps s).length ≤ ps.length :=
  List.length_filter_le _ ps

theorem mem_removePlayer {ps : List String} {s pid : String} :
    pid ∈ removePlayer ps s ↔ pid ∈ ps ∧ pid ≠ s := by
  simp [removePlayer]

theorem isEmpty_eq_false_iff {l : List String} : l.isEmpty = false ↔ l ≠ [] := by
  cases l <;> simp

theorem isEmpty_eq_true_iff {l : List String} : l.isEmpty = true ↔ l = [] := by
  cases l <;> simp

/-! ## Shape lemmas: the possible state transitions of each handler -/

theorem gameJoinRoom_cases (s roomId : String) (m : RoomsMap) :
    (gameJoinRoom s roomId m).1 = m ∨
    ∃ room, mapGet m (jsToUpper (jsTrim roomId)) = some room ∧
      room.players.length < 2 ∧ s ∉ room.players ∧
      (gameJoinRoom s roomId m).1 =
        mapSet m (jsToUpper (jsTrim roomId))
          { room with
            players := room.players ++ [s]
            gameStatus := .playing
            currentPlayer := room.lastStartingPlayer } := by
  by_cases h0 : jsTrim roomId = ""
  · left
    simp [gameJoinRoom, h0]
  · rcases hg : mapGet m (jsToUpper (jsTrim roomId)) with _ | room
    · left
      simp [gameJoinRoom, h0, hg]
    · by_cases h2 : room.players.length ≥ 2
      · left
        simp [gameJoinRoom, h0, hg, h2]
      · by_cases h3 : s ∈ room.players
        · left
          simp [gameJoinRoom, h0, hg, h2, h3]
        · right
          refine ⟨room, rfl, by omega, h3, ?_⟩
          simp [gameJoinRoom, h0, hg, h2, h3]

theorem gameMove_cases (s rid : String) (i : Int) (sym : Symbol) (m : RoomsMap) :
    (gameMove s rid i sym m).1 = m ∨
    ∃ k room, findByFull rid m = some (k, room) ∧ moveAccepted room i sym ∧
      (gameMove s rid i sym m).1 = updateByFull rid (movedRoom room i sym) m := by
  rcases hf : findByFull rid m with _ | ⟨k, room⟩
  · left
    simp [gameMove, hf]
  · by_cases h1 : room.gameStatus = .playing
    · by_cases h2 : room.currentPlayer = sym
      · by_cases h3 : cellAt room.board i = some none
        · right
          exact ⟨k, room, rfl, ⟨h1, h2, h3⟩, by simp [gameMove, hf, h1, h2, h3]⟩
        · left
          simp [gameMove, hf, h1, h2, h3]
      · left
        simp [gameMove, hf, h1, h2]
    · left
      simp [gameMove, hf, h1]

theorem gameReset_cases (s rid : String) (m : RoomsMap) :
    (gameReset s rid m).1 = m ∨
    ∃ k room, findByFull rid m = some (k, room) ∧
      (gameReset s rid m).1 = updateByFull rid (resetRoom room) m := by
  rcases hf : findByFull rid m with _ | ⟨k, room⟩
  · left
    simp [gameReset, hf]
  · right
    exact ⟨k, room, rfl, by simp [gameReset, hf]⟩

theorem gameLeave_cases (s rid : String) (m : RoomsMap) :
    (gameLeave s rid m).1 = m ∨
    (∃ k room, findByFull rid m = some (k, room) ∧
      removePlayer room.players s = [] ∧ (gameLeave s rid m).1 = mapDelete m k) ∨
    (∃ k room, findByFull rid m = some (k, room) ∧
      removePlayer room.players s ≠ [] ∧
      (gameLeave s rid m).1 =
        updateByFull rid { room with players := removePlayer room.players s } m) := by
  rcases hf : findByFull rid m with _ | ⟨k, room⟩
  · left
    simp [gameLeave, hf]
  · by_cases he : removePlayer room.players s = []
    · right; left
      exact ⟨k, room, rfl, he, by simp [gameLeave, hf, he]⟩
    · right; right
      refine ⟨k, room, rfl, he, ?_⟩
      simp [gameLeave, hf, isEmpty_eq_false_iff.mpr he]

/-! ## Disconnect-loop lemmas -/

theorem leaveOnDisconnect_mem_empty {s : String} {kr : String × Room}
    (hs : s ∈ kr.2.players) (he : removePlayer kr.2.players s = []) :
    leaveOnDisconnect s kr = (none, []) := by
  simp [leaveOnDisconnect, hs, he]

theorem leaveOnDisconnect_mem_ne {s : String} {kr : String × Room}
    (hs : s ∈ kr.2.players) (he : removePlayer kr.2.players s ≠ []) :
    leaveOnDisconnect s kr =
      (some (kr.1, { kr.2 with players := removePlayer kr.2.players s }),
       [(.toGroupExceptSender kr.2.fullRoomId s, .opponentLeft)]) := by
  simp [leaveOnDisconnect, hs, isEmpty_eq_false_iff.mpr he]

theorem leaveOnDisconnect_not_mem {s : String} {kr : String × Room}
    (hs : s ∉ kr.2.players) : leaveOnDisconnect s kr = (some kr, []) := by
  simp [leaveOnDisconnect, hs]

theorem mem_disconnectCleanup {s : String} {m : RoomsMap} {kr1 : String × Room}
    (h : kr1 ∈ (disconnectCleanup s m).1) :
    kr1 ∈ m ∨ ∃ kr ∈ m, s ∈ kr.2.players ∧ removePlayer kr.2.players s ≠ [] ∧
      kr1 = (kr.1, { kr.2 with players := removePlayer kr.2.players s }) := by
  induction m with
  | nil =>
    simp [disconnectCleanup] at h
  | cons kr rest ih =>
    simp only [disconnectCleanup] at h
    rcases List.mem_append.mp h with h | h
    · by_cases hc : s ∈ kr.2.players
      · by_cases he : removePlayer kr.2.players s = []
        · rw [leaveOnDisconnect_mem_empty hc he] at h
          cases h
        · rw [leaveOnDisconnect_mem_ne hc he] at h
          simp only [Option.toList_some, List.mem_singleton] at h
          exact Or.inr ⟨kr, List.mem_cons_self _ _, hc, he, h⟩
      · rw [leaveOnDisconnect_not_mem hc] at h
        simp only [Option.toList_some, List.mem_singleton] at h
        exact Or.inl (h ▸ List.mem_cons_self _ _)
    · rcases ih h with h1 | ⟨kr0, hkr0, hs0, hne0, heq0⟩
      · exact Or.inl (List.mem_cons_of_mem _ h1)
      · exact Or.inr ⟨kr0, List.mem_cons_of_mem _ hkr0, hs0, hne0, heq0⟩

theorem disconnectCleanup_keys_sublist (s : String) (m : RoomsMap) :
    ((disconnectCleanup s m).1.map Prod.fst).Sublist (m.map Prod.fst) := by
  induction m with
  | nil => simp [disconnectCleanup]
  | cons kr rest ih =>
    simp only [disconnectCleanup, List.map_append, List.map_cons]
    by_cases hc : s ∈ kr.2.players
    · by_cases he : removePlayer kr.2.players s = []
      · rw [leaveOnDisconnect_mem_empty hc he]
        simpa using ih.cons kr.1
      · rw [leaveOnDisconnect_mem_ne hc he]
        simpa using ih.cons₂ kr.1
    · rw [leaveOnDisconnect_not_mem hc]
      simpa using ih.cons₂ kr.1

theorem mapGet_disconnect_of_none {s : String} {m : RoomsMap} {k : String}
    (h : mapGet m k = none) : mapGet (disconnectCleanup s m).1 k = none := by
  rw [mapGet_eq_none_iff] at h ⊢
  intro kr1 h1
  rcases mem_disconnectCleanup h1 with h2 | ⟨kr0, hkr0, _, _, heq⟩
  · exact h kr1 h2
  · rw [heq]
    exact h kr0 hkr0

theorem mapGet_disconnectCleanup {s : String} {m : RoomsMap} {k : String} {room : Room}
    (hnd : (m.map Prod.fst).Nodup) (hm : (k, room) ∈ m) (hs : s ∈ room.players) :
    (removePlayer room.players s = [] →
       mapGet (disconnectCleanup s m).1 k = none) ∧
    (removePlayer room.players s ≠ [] →
       mapGet (disconnectCleanup s m).1 k =
         some { room with players := removePlayer room.players s }) := by
  induction m with
  | nil => cases hm
  | cons kr rest ih =>
    simp only [List.map_cons, List.nodup_cons] at hnd
    rcases List.mem_cons.mp hm with heq | hmem
    · cases heq.symm
      constructor
      · intro hemp
        have hld := @leaveOnDisconnect_mem_empty s (k, room) hs hemp
        simp only [disconnectCleanup, hld, Option.toList_none, List.nil_append]
        apply mapGet_disconnect_of_none
        rw [mapGet_eq_none_iff]
        intro kr2 h2 hk2
        have h3 : kr2.1 ∈ List.map Prod.fst rest := List.mem_map_of_mem Prod.fst h2
        rw [hk2] at h3
        exact hnd.1 h3
      · intro hne
        have hld := @leaveOnDisconnect_mem_ne s (k, room) hs hne
        simp [disconnectCleanup, hld, mapGet_cons]
    · have hk1 : kr.1 ≠ k := by
        intro hk
        exact hnd.1 (hk ▸ List.mem_map_of_mem Prod.fst hmem)
      have ihm := ih hnd.2 hmem
      rcases hstep : (leaveOnDisconnect s kr).1 with _ | kr1
      · constructor
        · intro hemp
          simp only [disconnectCleanup, hstep, Option.toList_none, List.nil_append]
          exact ihm.1 hemp
        · intro hne
          simp only [disconnectCleanup, hstep, Option.toList_none, List.nil_append]
          exact ihm.2 hne
      · rcases kr1 with ⟨k1, r1⟩
        have hkey : k1 = kr.1 := by
          by_cases hc : s ∈ kr.2.players
          · by_cases he : removePlayer kr.2.players s = []
            · rw [leaveOnDisconnect_mem_empty hc he] at hstep
              cases hstep
            · rw [leaveOnDisconnect_mem_ne hc he] at hstep
              cases hstep
              rfl
          · rw [leaveOnDisconnect_not_mem hc] at hstep
            cases hstep
            rfl
        have hk1k : ¬ (k1 = k) := by
          rw [hkey]
          exact hk1
        constructor
        · intro hemp
          simp only [disconnectCleanup, hstep, Option.toList_some, List.cons_append,
            List.nil_append, mapGet_cons, if_neg hk1k]
          exact ihm.1 hemp
        · intro hne
          simp only [disconnectCleanup, hstep, Option.toList_some, List.cons_append,
            List.nil_append, mapGet_cons, if_neg hk1k]
          exact ihm.2 hne

/-! ## The reachable-state invariant -/

/-- Per-room invariant that holds in every reachable registry state. -/
def RoomInv (room : Room) : Prop :=
  room.players ≠ [] ∧ room.players.length ≤ 2 ∧
    (room.gameStatus = .waiting → room.players.length = 1) ∧
    room.board.length = 9

/-- Registry-wide invariant: distinct short ids, every room satisfies
`RoomInv`. -/
def MapInv (m : RoomsMap) : Prop :=
  (m.map Prod.fst).Nodup ∧ ∀ kr ∈ m, RoomInv kr.2

theorem roomInv_newRoom (sender fid : String) : RoomInv (newRoom sender fid) := by
  refine ⟨by simp [newRoom], by simp [newRoom], by simp [newRoom], by simp [newRoom]⟩

theorem roomInv_joined {room : Room} (h : RoomInv room) (hlt : room.players.length < 2)
    (s : String) :
    RoomInv { room with
      players := room.players ++ [s]
      gameStatus := .playing
      currentPlayer := room.lastStartingPlayer } := by
  obtain ⟨_, _, _, h4⟩ := h
  refine ⟨by simp, ?_, by simp, h4⟩
  show (room.players ++ [s]).length ≤ 2
  have hlen : (room.players ++ [s]).length = room.players.length + 1 := by simp
  rw [hlen]
  omega

theorem roomInv_moved {room : Room} (h : RoomInv room) {i : Int} {sym : Symbol}
    (hacc : moveAccepted room i sym) : RoomInv (movedRoom room i sym) := by
  obtain ⟨h1, h2, _, h4⟩ := h
  obtain ⟨hst, _, hcell⟩ := hacc
  have hi : ¬ i < 0 := by
    intro hi
    rw [cellAt, if_pos hi] at hcell
    cases hcell
  refine ⟨h1, h2, ?_, ?_⟩
  · intro hw
    simp only [movedRoom] at hw
    rw [hst] at hw
    by_cases hwin : (checkWinner (setCell room.board i sym)).isSome
    · rw [if_pos hwin] at hw
      cases hw
    · rw [if_neg hwin] at hw
      cases hw
  · simp only [movedRoom, setCell, if_neg hi]
    simpa using h4

theorem roomInv_reset {room : Room} (h : RoomInv room) : RoomInv (resetRoom room) := by
  obtain ⟨h1, h2, _, _⟩ := h
  exact ⟨h1, h2, by simp [resetRoom], by simp [resetRoom]⟩

theorem roomInv_removed {room : Room} (h : RoomInv room) {s : String}
    (hne : removePlayer room.players s ≠ []) :
    RoomInv { room with players := removePlayer room.players s } := by
  obtain ⟨_, h2, h3, h4⟩ := h
  refine ⟨hne, le_trans (removePlayer_length_le _ _) h2, ?_, h4⟩
  intro hw
  have hlen := h3 hw
  have hle := removePlayer_length_le room.players s
  have hpos : 0 < (removePlayer room.players s).length := List.length_pos.mpr hne
  show (removePlayer room.players s).length = 1
  omega

theorem mapInv_updateByFull {m : RoomsMap} (hm : MapInv m) {rid : String} {r1 : Room}
    (hr1 : RoomInv r1) : MapInv (updateByFull rid r1 m) := by
  obtain ⟨hnd, hinv⟩ := hm
  refine ⟨by rw [updateByFull_keys]; exact hnd, ?_⟩
  intro kr hkr
  rcases mem_updateByFull hkr with h1 | h1
  · exact hinv kr h1
  · rw [h1]
    exact hr1

theorem mapInv_create {m : RoomsMap} (h : MapInv m) (s sid fid : String)
    (hfresh : mapGet m sid = none) : MapInv (gameCreateRoom s sid fid m).1 := by
  obtain ⟨hnd, hinv⟩ := h
  constructor
  · simp only [gameCreateRoom, List.map_append, List.map_cons, List.map_nil]
    rw [List.nodup_append]
    refine ⟨hnd, List.nodup_singleton _, ?_⟩
    intro a ha hb
    simp only [List.mem_singleton] at hb
    subst hb
    rw [mapGet_eq_none_iff] at hfresh
    obtain ⟨kr, hkr, hkr2⟩ := List.mem_map.mp ha
    exact hfresh kr hkr hkr2
  · intro kr hkr
    rcases List.mem_append.mp hkr with h1 | h1
    · exact hinv kr h1
    · simp only [List.mem_singleton] at h1
      rw [h1]
      exact roomInv_newRoom s fid

theorem mapInv_join {m : RoomsMap} (hm : MapInv m) (s roomId : String) :
    MapInv (gameJoinRoom s roomId m).1 := by
  rcases gameJoinRoom_cases s roomId m with h | ⟨room, hg, hlt, hnm, h⟩
  · rw [h]
    exact hm
  · rw [h]
    obtain ⟨hnd, hinv⟩ := hm
    constructor
    · rw [mapSet_keys]
      exact hnd
    · intro kr hkr
      rcases mem_mapSet hkr with h1 | h1
      · exact hinv kr h1
      · rw [h1]
        exact roomInv_joined (hinv _ (mapGet_mem hg)) hlt s

theorem mapInv_move {m : RoomsMap} (hm : MapInv m) (s rid : String) (i : Int)
    (sym : Symbol) : MapInv (gameMove s rid i sym m).1 := by
  rcases gameMove_cases s rid i sym m with h | ⟨k, room, hf, hacc, h⟩
  · rw [h]
    exact hm
  · rw [h]
    exact mapInv_updateByFull hm (roomInv_moved (hm.2 _ (findByFull_mem hf).1) hacc)

theorem mapInv_reset {m : RoomsMap} (hm : MapInv m) (s rid : String) :
    MapInv (gameReset s rid m).1 := by
  rcases gameReset_cases s rid m with h | ⟨k, room, hf, h⟩
  · rw [h]
    exact hm
  · rw [h]
    exact mapInv_updateByFull hm (roomInv_reset (hm.2 _ (findByFull_mem hf).1))

theorem mapInv_mapDelete {m : RoomsMap} (hm : MapInv m) (k : String) :
    MapInv (mapDelete m k) := by
  obtain ⟨hnd, hinv⟩ := hm
  refine ⟨List.Nodup.sublist mapDelete_keys_sublist hnd, ?_⟩
  intro kr hkr
  exact hinv kr (mem_mapDelete hkr)

theorem mapInv_leave {m : RoomsMap} (hm : MapInv m) (s rid : String) :
    MapInv (gameLeave s rid m).1 := by
  rcases gameLeave_cases s rid m with h | ⟨k, room, hf, he, h⟩ | ⟨k, room, hf, hne, h⟩
  · rw [h]
    exact hm
  · rw [h]
    exact mapInv_mapDelete hm k
  · rw [h]
    exact mapInv_updateByFull hm (roomInv_removed (hm.2 _ (findByFull_mem hf).1) hne)

theorem mapInv_disconnect {m : RoomsMap} (hm : MapInv m) (s : String) :
    MapInv (disconnectCleanup s m).1 := by
  obtain ⟨hnd, hinv⟩ := hm
  constructor
  · exact List.Nodup.sublist (disconnectCleanup_keys_sublist s m) hnd
  · intro kr hkr
    rcases mem_disconnectCleanup hkr with h1 | ⟨kr0, hkr0, _, hne0, heq0⟩
    · exact hinv kr h1
    · rw [heq0]
      exact roomInv_removed (hinv kr0 hkr0) hne0

/-- Every reachable registry state satisfies the registry-wide
invariant. -/
theorem reachable_mapInv {m : RoomsMap} (h : Reachable m) : MapInv m := by
  induction h with
  | init => exact ⟨List.nodup_nil, by simp⟩
  | create s sid fid h hfresh ih => exact mapInv_create ih s sid fid hfresh
  | join s roomId h ih => exact mapInv_join ih s roomId
  | move s rid i sym h ih => exact mapInv_move ih s rid i sym
  | reset s rid h ih => exact mapInv_reset ih s rid
  | leave s rid h ih => exact mapInv_leave ih s rid
  | disconnect s h ih => exact mapInv_disconnect ih s

/-! ## Concrete demo states -/

theorem demoMap_eq : demoMap = [("ABCDEF", demoRoom)] := by decide

theorem demoMap_reachable : Reachable demoMap :=
  Reachable.join "bob" "ABCDEF"
    (Reachable.create "alice" "ABCDEF" "room-1-abcdef" Reachable.init rfl)

theorem demoMapMoved_reachable : Reachable demoMapMoved :=
  Reachable.move "alice" "room-1-abcdef" 0 .X demoMap_reachable

/-! ## Claim C1 -/

/-- C1: for a room found by `internalId`, a move request is accepted iff
the room is `playing`, the symbol is the current player, and the
addressed cell is empty; in that case the room is updated and the new
state broadcast, while every other move request leaves the registry
unchanged and emits a single error reply to the sender. -/
theorem c1_move_accept_iff (sender rid : String) (i : Int) (sym : Symbol)
    (m : RoomsMap) (k : String) (room : Room)
    (hfind : findByFull rid m = some (k, room)) :
    (moveAccepted room i sym →
       gameMove sender rid i sym m =
         (updateByFull rid (movedRoom room i sym) m,
          [(Dest.toGroup rid,
            Msg.moveBroadcast (movedRoom room i sym).board
              (movedRoom room i sym).currentPlayer
              (checkWinner (movedRoom room i sym).board))])) ∧
    (¬ moveAccepted room i sym →
       (gameMove sender rid i sym m).1 = m ∧
       ∃ e, (gameMove sender rid i sym m).2 = [(Dest.toSender sender, Msg.error e)]) := by
  constructor
  · rintro ⟨h1, h2, h3⟩
    simp [gameMove, hfind, h1, h2, h3]
  · intro hna
    by_cases h1 : room.gameStatus = .playing
    · by_cases h2 : room.currentPlayer = sym
      · by_cases h3 : cellAt room.board i = some none
        · exact absurd ⟨h1, h2, h3⟩ hna
        · exact ⟨by simp [gameMove, hfind, h1, h2, h3],
                 "Cell already occupied", by simp [gameMove, hfind, h1, h2, h3]⟩
      · exact ⟨by simp [gameMove, hfind, h1, h2],
               "Not your turn", by simp [gameMove, hfind, h1, h2]⟩
    · exact ⟨by simp [gameMove, hfind, h1],
             "Game is not in progress", by simp [gameMove, hfind, h1]⟩

/-- C1 witness: an accepted move of X at cell 4 of the demo room. -/
theorem c1_witness :
    gameMove "alice" "room-1-abcdef" 4 .X demoMap =
      (updateByFull "room-1-abcdef" (movedRoom demoRoom 4 .X) demoMap,
       [(Dest.toGroup "room-1-abcdef",
         Msg.moveBroadcast (movedRoom demoRoom 4 .X).board
           (movedRoom demoRoom 4 .X).currentPlayer
           (checkWinner (movedRoom demoRoom 4 .X).board))]) :=
  (c1_move_accept_iff "alice" "room-1-abcdef" 4 .X demoMap "ABCDEF" demoRoom
    (by decide)).1 (by decide)

/-! ## Claim C2 -/

/-- C2 counterexample: after a create followed by a reset, the room is
`playing` with a single player, so `status = playing` does not imply two
players in every reachable state. -/
theorem c2_counterexample :
    Reachable waitingResetMap ∧
    ∃ k room, findByFull "room-1-abcdef" waitingResetMap = some (k, room) ∧
      room.gameStatus = .playing ∧ room.players.length ≠ 2 := by
  refine ⟨Reachable.reset "alice" "room-1-abcdef"
    (Reachable.create "alice" "ABCDEF" "room-1-abcdef" Reachable.init rfl), ?_⟩
  exact ⟨"ABCDEF",
    ⟨["alice"], List.replicate 9 none, .O, .playing, "room-1-abcdef", .O⟩,
    by decide, rfl, by decide⟩

/-- C2 (amended): in every reachable room state, `status = waiting`
implies exactly one player, and every registered room has one or two
players; `status = playing` with a single player is reachable (reset on
a waiting room, or a leave from a playing room), so the playing half
only bounds the count. -/
theorem c2_waiting_invariant {m : RoomsMap} (h : Reachable m) :
    ∀ kr ∈ m, (kr.2.gameStatus = .waiting → kr.2.players.length = 1) ∧
      1 ≤ kr.2.players.length ∧ kr.2.players.length ≤ 2 := by
  intro kr hkr
  obtain ⟨hne, hle, hw, _⟩ := (reachable_mapInv h).2 kr hkr
  exact ⟨hw, List.length_pos.mpr hne, hle⟩

/-- C2 witness: the invariant evaluated on the demo registry. -/
theorem c2_witness :
    (demoRoom.gameStatus = GameStatus.waiting → demoRoom.players.length = 1) ∧
      1 ≤ demoRoom.players.length ∧ demoRoom.players.length ≤ 2 :=
  c2_waiting_invariant demoMap_reachable ("ABCDEF", demoRoom)
    (by rw [demoMap_eq]; exact List.mem_cons_self _ _)

/-! ## Claim C3 -/

/-- C3 counterexample: on a board where both marks have completed lines,
`checkWinner` returns the first matching line's mark (X), so the
per-mark biconditional "returns a mark iff that mark fills a triple"
fails for O. -/
theorem c3_counterexample :
    markFillsTriple doubleWinBoard .O = true ∧
      checkWinner doubleWinBoard ≠ some (Outcome.win .O) := by
  decide

/-- C3 (amended): `checkWinner` is total with the four outcome classes
`none`, X, O, `draw`; a returned mark always fills one of the 8 triples;
a mark is returned iff some mark fills a triple, and whenever only one
mark fills triples, exactly that mark is returned (on a double-win board
the first line in the fixed order decides); `draw` iff no triple matched
and every cell is filled; `none` iff no triple matched and some cell is
empty. -/
theorem c3_characterization (b : List Cell) :
    (∀ s, checkWinner b = some (Outcome.win s) → markFillsTriple b s = true) ∧
    ((∃ s, markFillsTriple b s = true) ↔ ∃ s, checkWinner b = some (Outcome.win s)) ∧
    (∀ s, markFillsTriple b s = true → markFillsTriple b (Symbol.flip s) = false →
       checkWinner b = some (Outcome.win s)) ∧
    (checkWinner b = some Outcome.draw ↔
       (∀ s, markFillsTriple b s = false) ∧ boardFull b = true) ∧
    (checkWinner b = none ↔
       (∀ s, markFillsTriple b s = false) ∧ boardFull b = false) := by
  have key1 : findLineWinner b winLines = none ↔ ∀ s, markFillsTriple b s = false := by
    constructor
    · intro h s
      cases hmf : markFillsTriple b s with
      | false => rfl
      | true =>
        exfalso
        obtain ⟨l, hl, hcl⟩ := markFillsTriple_iff.mp hmf
        rw [findLineWinner_eq_none_iff] at h
        rw [h l hl] at hcl
        cases hcl
    · intro h
      rw [findLineWinner_eq_none_iff]
      intro l hl
      rcases hcl : checkLine b l with _ | t
      · rfl
      · exfalso
        have hmf : markFillsTriple b t = true := markFillsTriple_iff.mpr ⟨l, hl, hcl⟩
        rw [h t] at hmf
        cases hmf
  have key2 : ∀ s, findLineWinner b winLines = some s → markFillsTriple b s = true := by
    intro s h
    obtain ⟨l, hl, hcl⟩ := findLineWinner_mem h
    exact markFillsTriple_iff.mpr ⟨l, hl, hcl⟩
  have key3 : ∀ s, markFillsTriple b s = true → markFillsTriple b (Symbol.flip s) = false →
      findLineWinner b winLines = some s := by
    intro s hs hflip
    apply findLineWinner_eq_some
    · intro l hl
      rcases hcl : checkLine b l with _ | t
      · exact Or.inl rfl
      · rcases Symbol.eq_or_eq_flip t s with rfl | rfl
        · exact Or.inr rfl
        · exfalso
          have hmf : markFillsTriple b (Symbol.flip s) = true :=
            markFillsTriple_iff.mpr ⟨l, hl, hcl⟩
          rw [hflip] at hmf
          cases hmf
    · exact markFillsTriple_iff.mp hs
  have conj1 : ∀ s, checkWinner b = some (Outcome.win s) → markFillsTriple b s = true := by
    intro s h
    rcases hfl : findLineWinner b winLines with _ | t
    · by_cases hb : boardFull b <;> simp [checkWinner, hfl, hb] at h
    · simp only [checkWinner, hfl, Option.some.injEq, Outcome.win.injEq] at h
      subst h
      exact key2 _ hfl
  refine ⟨conj1, ⟨?_, ?_⟩, ?_, ?_, ?_⟩
  · rintro ⟨s, hs⟩
    rcases hfl : findLineWinner b winLines with _ | t
    · rw [key1.mp hfl s] at hs
      cases hs
    · exact ⟨t, by simp [checkWinner, hfl]⟩
  · rintro ⟨s, hs⟩
    exact ⟨s, conj1 s hs⟩
  · intro s hs hflip
    simp [checkWinner, key3 s hs hflip]
  · rcases hfl : findLineWinner b winLines with _ | t
    · by_cases hb : boardFull b
      · simp [checkWinner, hfl, hb, key1.mp hfl]
      · simp [checkWinner, hfl, hb]
    · constructor
      · intro h
        simp [checkWinner, hfl] at h
      · rintro ⟨hall, _⟩
        have := key2 t hfl
        rw [hall t] at this
        cases this
  · rcases hfl : findLineWinner b winLines with _ | t
    · by_cases hb : boardFull b
      · constructor
        · intro h
          simp [checkWinner, hfl, hb] at h
        · rintro ⟨_, hb2⟩
          rw [hb2] at hb
          cases hb
      · simp [checkWinner, hfl, hb, key1.mp hfl]
    · constructor
      · intro h
        simp [checkWinner, hfl] at h
      · rintro ⟨hall, _⟩
        have := key2 t hfl
        rw [hall t] at this
        cases this

/-- C3 witness: on the top-row-X board, the returned mark X indeed fills
a triple. -/
theorem c3_witness : markFillsTriple topRowXBoard .X = true :=
  (c3_characterization topRowXBoard).1 .X (by decide)

/-! ## Claim C4 -/

/-- C4 counterexample: a leave naming an unknown `internalId` is
silently ignored — the handler emits no reply at all, rather than an
error reply. -/
theorem c4_counterexample :
    findByFull "room-x" ([] : RoomsMap) = none ∧
      gameLeave "alice" "room-x" ([] : RoomsMap) = ([], []) :=
  ⟨rfl, rfl⟩

/-- C4 (amended): every precondition failure of join-room, move, and
reset emits a single direct error reply to the sender, never a group
broadcast, and performs no state mutation (create-room has no
preconditions); a reset naming an unknown `internalId` yields an error
reply, but a leave naming an unknown `internalId` performs no mutation
and emits nothing at all. -/
theorem c4_error_policy :
    (∀ s roomId m, ¬ joinPre s roomId m →
       (gameJoinRoom s roomId m).1 = m ∧
       ∃ e, (gameJoinRoom s roomId m).2 = [(Dest.toSender s, Msg.error e)]) ∧
    (∀ s rid (i : Int) sym m, ¬ movePre rid i sym m →
       (gameMove s rid i sym m).1 = m ∧
       ∃ e, (gameMove s rid i sym m).2 = [(Dest.toSender s, Msg.error e)]) ∧
    (∀ s rid m, findByFull rid m = none →
       gameReset s rid m = (m, [(Dest.toSender s, Msg.error "Room not found")])) ∧
    (∀ s rid m, findByFull rid m = none → gameLeave s rid m = (m, [])) := by
  refine ⟨?_, ?_, ?_, ?_⟩
  · intro s roomId m hpre
    by_cases h0 : jsTrim roomId = ""
    · exact ⟨by simp [gameJoinRoom, h0],
             "Invalid room ID. Please enter a room ID.", by simp [gameJoinRoom, h0]⟩
    · rcases hg : mapGet m (jsToUpper (jsTrim roomId)) with _ | room
      · exact ⟨by simp [gameJoinRoom, h0, hg],
               "Room not found. Please check the room ID.", by simp [gameJoinRoom, h0, hg]⟩
      · by_cases h2 : room.players.length ≥ 2
        · exact ⟨by simp [gameJoinRoom, h0, hg, h2],
                 "Room is full. Maximum 2 players allowed.",
                 by simp [gameJoinRoom, h0, hg, h2]⟩
        · by_cases h3 : s ∈ room.players
          · exact ⟨by simp [gameJoinRoom, h0, hg, h2, h3],
                   "You are already in this room.", by simp [gameJoinRoom, h0, hg, h2, h3]⟩
          · exact absurd ⟨h0, room, hg, by omega, h3⟩ hpre
  · intro s rid i sym m hpre
    rcases hf : findByFull rid m with _ | ⟨k, room⟩
    · exact ⟨by simp [gameMove, hf], "Room not found", by simp [gameMove, hf]⟩
    · by_cases h1 : room.gameStatus = .playing
      · by_cases h2 : room.currentPlayer = sym
        · by_cases h3 : cellAt room.board i = some none
          · exact absurd ⟨k, room, hf, h1, h2, h3⟩ hpre
          · exact ⟨by simp [gameMove, hf, h1, h2, h3],
                   "Cell already occupied", by simp [gameMove, hf, h1, h2, h3]⟩
        · exact ⟨by simp [gameMove, hf, h1, h2],
                 "Not your turn", by simp [gameMove, hf, h1, h2]⟩
      · exact ⟨by simp [gameMove, hf, h1],
               "Game is not in progress", by simp [gameMove, hf, h1]⟩
  · intro s rid m h
    simp [gameReset, h]
  · intro s rid m h
    simp [gameLeave, h]

/-- C4 witness: a join with a blank room id on the empty registry is
rejected with a single direct error reply and no mutation. -/
theorem c4_witness :
    (gameJoinRoom "alice" "" ([] : RoomsMap)).1 = ([] : RoomsMap) ∧
    ∃ e, (gameJoinRoom "alice" "" ([] : RoomsMap)).2 =
      [(Dest.toSender "alice", Msg.error e)] :=
  c4_error_policy.1 "alice" "" [] (by rintro ⟨h1, _⟩; exact h1 (by decide))

/-! ## Claim C5 -/

/-- C5: a reset on a room found by `internalId` replaces the board with
9 empty cells, sets the status to `playing`, flips `lastStartingSymbol`
(so it differs from its prior value), hands the turn to the new starting
symbol, and broadcasts the cleared state; a second reset restores the
original opener. -/
theorem c5_reset_spec (s1 s2 rid : String) (m : RoomsMap) (k : String) (room : Room)
    (hfind : findByFull rid m = some (k, room)) :
    gameReset s1 rid m =
      (updateByFull rid (resetRoom room) m,
       [(Dest.toGroup rid,
         Msg.moveBroadcast (List.replicate 9 none) (Symbol.flip room.lastStartingPlayer)
           none)]) ∧
    (resetRoom room).board = List.replicate 9 none ∧
    (resetRoom room).gameStatus = .playing ∧
    (resetRoom room).lastStartingPlayer = Symbol.flip room.lastStartingPlayer ∧
    (resetRoom room).lastStartingPlayer ≠ room.lastStartingPlayer ∧
    (resetRoom room).currentPlayer = (resetRoom room).lastStartingPlayer ∧
    findByFull rid ((gameReset s2 rid (gameReset s1 rid m).1).1) =
      some (k, resetRoom (resetRoom room)) ∧
    (resetRoom (resetRoom room)).lastStartingPlayer = room.lastStartingPlayer := by
  have hfull : (resetRoom room).fullRoomId = rid := by
    simpa [resetRoom] using (findByFull_mem hfind).2
  have h1 : findByFull rid (updateByFull rid (resetRoom room) m) =
      some (k, resetRoom room) :=
    findByFull_updateByFull hfind hfull
  refine ⟨?_, rfl, rfl, rfl, Symbol.flip_ne _, rfl, ?_, ?_⟩
  · simp [gameReset, hfind, resetRoom]
  · have hst : (gameReset s1 rid m).1 = updateByFull rid (resetRoom room) m := by
      simp [gameReset, hfind]
    rw [hst]
    have hfull2 : (resetRoom (resetRoom room)).fullRoomId = rid := by
      simpa [resetRoom] using hfull
    have hst2 : (gameReset s2 rid (updateByFull rid (resetRoom room) m)).1 =
        updateByFull rid (resetRoom (resetRoom room))
          (updateByFull rid (resetRoom room) m) := by
      simp [gameReset, h1]
    rw [hst2]
    exact findByFull_updateByFull h1 hfull2
  · show Symbol.flip (Symbol.flip room.lastStartingPlayer) = room.lastStartingPlayer
    exact Symbol.flip_flip _

/-- C5 witness: resetting the demo room. -/
theorem c5_witness :
    gameReset "alice" "room-1-abcdef" demoMap =
      (updateByFull "room-1-abcdef" (resetRoom demoRoom) demoMap,
       [(Dest.toGroup "room-1-abcdef",
         Msg.moveBroadcast (List.replicate 9 none)
           (Symbol.flip demoRoom.lastStartingPlayer) none)]) :=
  (c5_reset_spec "alice" "x" "room-1-abcdef" demoMap "ABCDEF" demoRoom (by decide)).1

/-! ## Claim C6 -/

/-- C6: no reachable registry holds a zero-player room; a leave on a
found room deletes it exactly when the sender was its last player and
otherwise keeps it registered with the sender removed; a disconnect does
the same for every room containing the disconnected socket. -/
theorem c6_room_removal :
    (∀ m, Reachable m → ∀ kr ∈ m, kr.2.players ≠ []) ∧
    (∀ s rid m k room, Reachable m → findByFull rid m = some (k, room) →
       (removePlayer room.players s = [] → mapGet (gameLeave s rid m).1 k = none) ∧
       (removePlayer room.players s ≠ [] →
         mapGet (gameLeave s rid m).1 k =
           some { room with players := removePlayer room.players s })) ∧
    (∀ s m k room, Reachable m → (k, room) ∈ m → s ∈ room.players →
       (removePlayer room.players s = [] → mapGet (disconnectCleanup s m).1 k = none) ∧
       (removePlayer room.players s ≠ [] →
         mapGet (disconnectCleanup s m).1 k =
           some { room with players := removePlayer room.players s })) := by
  refine ⟨?_, ?_, ?_⟩
  · intro m h kr hkr
    exact ((reachable_mapInv h).2 kr hkr).1
  · intro s rid m k room h hfind
    obtain ⟨hnd, _⟩ := reachable_mapInv h
    constructor
    · intro he
      have hst : (gameLeave s rid m).1 = mapDelete m k := by
        simp [gameLeave, hfind, he]
      rw [hst]
      exact mapGet_mapDelete
    · intro hne
      have hst : (gameLeave s rid m).1 =
          updateByFull rid { room with players := removePlayer room.players s } m := by
        simp [gameLeave, hfind, isEmpty_eq_false_iff.mpr hne]
      rw [hst]
      exact mapGet_updateByFull hnd hfind
  · intro s m k room h hm hs
    exact mapGet_disconnectCleanup (reachable_mapInv h).1 hm hs

/-- C6 witness: "bob" leaving the demo room keeps it registered with
"alice" as the sole remaining player. -/
theorem c6_witness :
    mapGet (gameLeave "bob" "room-1-abcdef" demoMap).1 "ABCDEF" =
      some { demoRoom with players := removePlayer demoRoom.players "bob" } :=
  (c6_room_removal.2.1 "bob" "room-1-abcdef" demoMap "ABCDEF" demoRoom
    demoMap_reachable (by decide)).2 (by decide)

/-! ## Claim C7 -/

/-- C7: after an accepted move by `sym`, the found room's current player
is the opposite symbol, and any next accepted move on that room must be
by the opposite symbol — accepted moves strictly alternate within a
game. -/
theorem c7_alternation (s rid : String) (i : Int) (sym : Symbol) (m : RoomsMap)
    (k : String) (room : Room)
    (hfind : findByFull rid m = some (k, room)) (hacc : moveAccepted room i sym) :
    findByFull rid ((gameMove s rid i sym m).1) = some (k, movedRoom room i sym) ∧
    (movedRoom room i sym).currentPlayer = Symbol.flip sym ∧
    (∀ (i2 : Int) sym2, moveAccepted (movedRoom room i sym) i2 sym2 →
       sym2 = Symbol.flip sym) := by
  obtain ⟨h1, h2, h3⟩ := hacc
  have hst : (gameMove s rid i sym m).1 = updateByFull rid (movedRoom room i sym) m := by
    simp [gameMove, hfind, h1, h2, h3]
  have hfull : (movedRoom room i sym).fullRoomId = rid := by
    simpa [movedRoom] using (findByFull_mem hfind).2
  refine ⟨?_, rfl, ?_⟩
  · rw [hst]
    exact findByFull_updateByFull hfind hfull
  · rintro i2 sym2 ⟨_, hcp, _⟩
    rw [← hcp]
    rfl

/-- C7 witness: after X takes cell 0 of the demo room, the turn belongs
to O. -/
theorem c7_witness : (movedRoom demoRoom 0 .X).currentPlayer = Symbol.flip .X :=
  (c7_alternation "alice" "room-1-abcdef" 0 .X demoMap "ABCDEF" demoRoom
    (by decide) (by decide)).2.1

/-! ## Claim C8 -/

/-- C8 counterexample: a reset on a reachable room whose cell 0 holds X
changes that non-empty cell (to empty), so "no operation ever changes a
non-empty board cell" fails. -/
theorem c8_counterexample :
    Reachable demoMapMoved ∧
    (∃ k room, findByFull "room-1-abcdef" demoMapMoved = some (k, room) ∧
       cellD room.board 0 = some .X) ∧
    (∃ k room, findByFull "room-1-abcdef" demoMapMovedReset = some (k, room) ∧
       cellD room.board 0 = none) := by
  refine ⟨demoMapMoved_reachable, ?_, ?_⟩
  · exact ⟨"ABCDEF", demoRoomMoved, by decide, by decide⟩
  · exact ⟨"ABCDEF",
      ⟨["alice", "bob"], List.replicate 9 none, .O, .playing, "room-1-abcdef", .O⟩,
      by decide, by decide⟩

/-- C8 (amended): the board of every reachable room has exactly 9
cells; an accepted move writes a single empty cell and never changes a
non-empty cell; only reset rewrites filled cells, and it resets the
whole board to 9 empty cells. -/
theorem c8_board_cells :
    (∀ m, Reachable m → ∀ kr ∈ m, kr.2.board.length = 9) ∧
    (∀ (room : Room) (i : Int) (sym : Symbol) (j : Int) (t : Symbol),
       cellAt room.board i = some none → cellAt room.board j = some (some t) →
       cellAt (movedRoom room i sym).board j = some (some t)) ∧
    (∀ room : Room, (resetRoom room).board = List.replicate 9 none) := by
  refine ⟨?_, ?_, ?_⟩
  · intro m h kr hkr
    exact ((reachable_mapInv h).2 kr hkr).2.2.2
  · intro room i sym j t hi hj
    have hi0 : ¬ i < 0 := by
      intro h0
      rw [cellAt, if_pos h0] at hi
      cases hi
    have hj0 : ¬ j < 0 := by
      intro h0
      rw [cellAt, if_pos h0] at hj
      cases hj
    rw [cellAt, if_neg hi0] at hi
    rw [cellAt, if_neg hj0] at hj
    have hne : i.toNat ≠ j.toNat := by
      intro hEq
      rw [hEq] at hi
      rw [hi] at hj
      simp at hj
    show cellAt (setCell room.board i sym) j = some (some t)
    rw [cellAt, if_neg hj0, setCell, if_neg hi0]
    rw [List.getElem?_set]
    rw [if_neg hne]
    exact hj
  · intro room
    rfl

/-- C8 witness: an accepted move by O at cell 1 leaves the X already at
cell 0 untouched. -/
theorem c8_witness : cellAt (movedRoom demoRoomMoved 1 .O).board 0 = some (some .X) :=
  c8_board_cells.2.1 demoRoomMoved 1 .O 0 .X (by decide) (by decide)

/-! ## Claim C9 -/

/-- C9: the state transition and the group broadcast of a move or a
reset are independent of the sender's connection identity — the
handlers never check whether the sender belongs to the addressed
room. -/
theorem c9_sender_independence (s1 s2 rid : String) (i : Int) (sym : Symbol)
    (m : RoomsMap) :
    (gameMove s1 rid i sym m).1 = (gameMove s2 rid i sym m).1 ∧
    groupMsgs (gameMove s1 rid i sym m).2 = groupMsgs (gameMove s2 rid i sym m).2 ∧
    (gameReset s1 rid m).1 = (gameReset s2 rid m).1 ∧
    groupMsgs (gameReset s1 rid m).2 = groupMsgs (gameReset s2 rid m).2 := by
  refine ⟨?_, ?_, ?_, ?_⟩
  · rcases hf : findByFull rid m with _ | ⟨k, room⟩
    · simp [gameMove, hf]
    · by_cases h1 : room.gameStatus = .playing
      · by_cases h2 : room.currentPlayer = sym
        · by_cases h3 : cellAt room.board i = some none
          · simp [gameMove, hf, h1, h2, h3]
          · simp [gameMove, hf, h1, h2, h3]
        · simp [gameMove, hf, h1, h2]
      · simp [gameMove, hf, h1]
  · rcases hf : findByFull rid m with _ | ⟨k, room⟩
    · simp [gameMove, hf, groupMsgs, isGroupDest]
    · by_cases h1 : room.gameStatus = .playing
      · by_cases h2 : room.currentPlayer = sym
        · by_cases h3 : cellAt room.board i = some none
          · simp [gameMove, hf, h1, h2, h3, groupMsgs, isGroupDest]
          · simp [gameMove, hf, h1, h2, h3, groupMsgs, isGroupDest]
        · simp [gameMove, hf, h1, h2, groupMsgs, isGroupDest]
      · simp [gameMove, hf, h1, groupMsgs, isGroupDest]
  · rcases hf : findByFull rid m with _ | ⟨k, room⟩
    · simp [gameReset, hf]
    · simp [gameReset, hf]
  · rcases hf : findByFull rid m with _ | ⟨k, room⟩
    · simp [gameReset, hf, groupMsgs, isGroupDest]
    · simp [gameReset, hf, groupMsgs, isGroupDest]

/-! ## Claim C10 -/

/-- C10: a move whose index lies outside 0..8 never mutates the
registry (boards keep their 9 cells), and — whenever it passes the
room/status/turn checks that precede the cell check — it is rejected
with exactly the cell-occupied error reply, because the out-of-range
read `board[index]` yields `undefined`, which fails the `!== null`
emptiness test. -/
theorem c10_out_of_range (sender rid : String) (i : Int) (sym : Symbol) (m : RoomsMap)
    (hreach : Reachable m) (hout : i < 0 ∨ 9 ≤ i) :
    (gameMove sender rid i sym m).1 = m ∧
    (∀ kr ∈ m, kr.2.board.length = 9) ∧
    (∀ k room, findByFull rid m = some (k, room) → room.gameStatus = .playing →
       room.currentPlayer = sym →
       (gameMove sender rid i sym m).2 =
         [(Dest.toSender sender, Msg.error "Cell already occupied")]) := by
  have hlen : ∀ kr ∈ m, kr.2.board.length = 9 :=
    fun kr hkr => ((reachable_mapInv hreach).2 kr hkr).2.2.2
  have hcell : ∀ k room, findByFull rid m = some (k, room) →
      cellAt room.board i ≠ some none := by
    intro k room hfind
    have h9 : room.board.length = 9 := hlen _ (findByFull_mem hfind).1
    rcases hout with h | h
    · rw [cellAt, if_pos h]
      intro hc
      cases hc
    · rw [cellAt, if_neg (by omega)]
      have hnone : room.board[i.toNat]? = none := by
        rw [List.getElem?_eq_none]
        rw [h9]
        omega
      rw [hnone]
      intro hc
      cases hc
  refine ⟨?_, hlen, ?_⟩
  · rcases hf : findByFull rid m with _ | ⟨k, room⟩
    · simp [gameMove, hf]
    · by_cases h1 : room.gameStatus = .playing
      · by_cases h2 : room.currentPlayer = sym
        · simp [gameMove, hf, h1, h2, hcell k room hf]
        · simp [gameMove, hf, h1, h2]
      · simp [gameMove, hf, h1]
  · intro k room hfind h1 h2
    simp [gameMove, hfind, h1, h2, hcell k room hfind]

/-- C10 witness: a move at index 100 on the demo room is rejected as
cell-occupied without mutation. -/
theorem c10_witness :
    (gameMove "alice" "room-1-abcdef" 100 .X demoMap).1 = demoMap ∧
    (gameMove "alice" "room-1-abcdef" 100 .X demoMap).2 =
      [(Dest.toSender "alice", Msg.error "Cell already occupied")] := by
  have h := c10_out_of_range "alice" "room-1-abcdef" 100 .X demoMap demoMap_reachable
    (Or.inr (by decide))
  exact ⟨h.1, h.2.2 "ABCDEF" demoRoom (by decide) rfl rfl⟩

end TicTacToe
